import Mathlib

/-!
Shallow embedding of `src/spi_baremetal.c`, a polled-mode bare-metal SPI
master driver for an STM32-style microcontroller.

The C code accesses eight memory-mapped 32-bit registers.  We model the
machine as a register file (`MachState.regs`) together with a trace of every
bus access (`Event`) in program order.  Reads of the two hardware-driven
registers (the SPI status register `SR` and the SPI data register `DR`) are
resolved by an `Oracle`: the n-th read of `SR` (resp. `DR`) returns
`o.sr n` (resp. `o.dr n`), truncated to 32 bits.  Reads of the
configuration registers return the value last written (or the pre-call
contents).  The unbounded C busy-wait loops are embedded with an explicit
fuel parameter; exhausting the fuel returns `none`, so divergence of the C
loop corresponds to `= none` for every fuel.
-/

namespace SPIBaremetal

/-- The memory-mapped registers used by `src/spi_baremetal.c`:
`RCC_AHB1ENR`, `RCC_APB2ENR`, `GPIOA_MODER`, `GPIOA_AFRL`, `GPIOA_ODR`,
`SPI1_CR1`, `SPI1_SR`, `SPI1_DR`. -/
inductive Reg where
  | AHB1ENR
  | APB2ENR
  | MODER
  | AFRL
  | ODR
  | CR1
  | SR
  | DR
deriving DecidableEq, Repr

/-- One bus access: a read or a write of a register, with the 32-bit value
transferred. -/
inductive Event where
  | read (r : Reg) (v : Nat)
  | write (r : Reg) (v : Nat)
deriving DecidableEq, Repr

/-- All ones in 32 bits; `ones32 ^^^ m` is the C expression `~m` on
`uint32_t`. -/
def ones32 : Nat := 2 ^ 32 - 1

/-- Hardware oracle: the value returned by the n-th read of the SPI status
register and by the n-th read of the SPI data register.  These two registers
are driven by the peripheral, not by previous CPU writes. -/
structure Oracle where
  sr : Nat → Nat
  dr : Nat → Nat

/-- Machine state: current contents of the CPU-written registers, counters of
how many `SR` / `DR` reads have happened (indexing the oracle), and the trace
of all bus accesses so far, oldest first. -/
structure MachState where
  regs : Reg → Nat
  srReads : Nat
  drReads : Nat
  trace : List Event

/-- Initial machine state with pre-call register contents `f` (truncated to
32 bits, as the hardware registers are 32 bits wide) and an empty trace. -/
def initState (f : Reg → Nat) : MachState :=
  { regs := fun r => f r % 2 ^ 32
    srReads := 0
    drReads := 0
    trace := [] }

/-- A volatile 32-bit store `R = v`: updates the register file and records
the bus write. -/
def writeReg (s : MachState) (r : Reg) (v : Nat) : MachState :=
  { s with
    regs := fun r' => if r' = r then v % 2 ^ 32 else s.regs r'
    trace := s.trace ++ [Event.write r (v % 2 ^ 32)] }

/-- A volatile read of a configuration register, recorded in the trace; the
value obtained is the current register-file contents `s.regs r`. -/
def logRead (s : MachState) (r : Reg) : MachState :=
  { s with trace := s.trace ++ [Event.read r (s.regs r)] }

/-- The C read-modify-write `R |= m`: one bus read followed by one bus
write of the or-ed value. -/
def orEq (s : MachState) (r : Reg) (m : Nat) : MachState :=
  writeReg (logRead s r) r (s.regs r ||| m)

/-- The C read-modify-write `R &= ~m`: one bus read followed by one bus
write of the masked value. -/
def andNotEq (s : MachState) (r : Reg) (m : Nat) : MachState :=
  writeReg (logRead s r) r (s.regs r &&& (ones32 ^^^ m))

/-- `void spi_init(void)` from `src/spi_baremetal.c`, lines 49-71, one
statement per step:
`RCC_AHB1ENR |= (1 << 0);`
`RCC_APB2ENR |= (1 << 12);`
`GPIOA_MODER &= ~((3 << 8) | (3 << 10) | (3 << 12) | (3 << 14));`
`GPIOA_MODER |= (2 << 8) | (2 << 10) | (2 << 12) | (2 << 14);`
`GPIOA_AFRL &= ~((0xF << 16) | (0xF << 20) | (0xF << 24) | (0xF << 28));`
`GPIOA_AFRL |= (5 << 16) | (5 << 20) | (5 << 24) | (5 << 28);`
`SPI1_CR1 = 0;`
`SPI1_CR1 |= (1 << 2);`
`SPI1_CR1 |= (3 << 3);`
`SPI1_CR1 |= (0 << 1);`
`SPI1_CR1 |= (0 << 0);`
`SPI1_CR1 |= (1 << 6);` -/
def spi_init (s : MachState) : MachState :=
  let s := orEq s Reg.AHB1ENR (1 <<< 0)
  let s := orEq s Reg.APB2ENR (1 <<< 12)
  let s := andNotEq s Reg.MODER ((3 <<< 8) ||| (3 <<< 10) ||| (3 <<< 12) ||| (3 <<< 14))
  let s := orEq s Reg.MODER ((2 <<< 8) ||| (2 <<< 10) ||| (2 <<< 12) ||| (2 <<< 14))
  let s := andNotEq s Reg.AFRL ((0xF <<< 16) ||| (0xF <<< 20) ||| (0xF <<< 24) ||| (0xF <<< 28))
  let s := orEq s Reg.AFRL ((5 <<< 16) ||| (5 <<< 20) ||| (5 <<< 24) ||| (5 <<< 28))
  let s := writeReg s Reg.CR1 0
  let s := orEq s Reg.CR1 (1 <<< 2)
  let s := orEq s Reg.CR1 (3 <<< 3)
  let s := orEq s Reg.CR1 (0 <<< 1)
  let s := orEq s Reg.CR1 (0 <<< 0)
  let s := orEq s Reg.CR1 (1 <<< 6)
  s

/-- The 32-bit value obtained by the next read of `SPI1_SR`. -/
def srVal (o : Oracle) (s : MachState) : Nat := o.sr s.srReads % 2 ^ 32

/-- State after one volatile read of `SPI1_SR`: the oracle index advances and
the read is recorded in the trace. -/
def afterSRRead (o : Oracle) (s : MachState) : MachState :=
  { s with
    srReads := s.srReads + 1
    trace := s.trace ++ [Event.read Reg.SR (srVal o s)] }

/-- The 32-bit value obtained by the next read of `SPI1_DR`. -/
def drVal (o : Oracle) (s : MachState) : Nat := o.dr s.drReads % 2 ^ 32

/-- State after one volatile read of `SPI1_DR`. -/
def afterDRRead (o : Oracle) (s : MachState) : MachState :=
  { s with
    drReads := s.drReads + 1
    trace := s.trace ++ [Event.read Reg.DR (drVal o s)] }

/-- A C busy-wait loop `while (cont(SPI1_SR));` reading the status register
once per iteration and looping while `cont` holds of the value read.  The
fuel bounds how many reads we are willing to unfold; the C loop is unbounded,
so its divergence corresponds to `= none` for every fuel. -/
def pollSR (cont : Nat → Bool) (o : Oracle) : MachState → Nat → Option MachState
  | _, 0 => none
  | s, fuel + 1 =>
    if cont (srVal o s) then pollSR cont o (afterSRRead o s) fuel
    else some (afterSRRead o s)

/-- `void spi_transmit(uint8_t data)` from `src/spi_baremetal.c`, lines 74-80:
`while (!(SPI1_SR & (1 << 1)));` then `SPI1_DR = data;` then
`while (SPI1_SR & (1 << 7));`.  The `uint8_t` parameter is the value
`data % 256`. -/
def spi_transmit (o : Oracle) (data : Nat) (s : MachState) (fuel : Nat) :
    Option MachState :=
  (pollSR (fun v => v &&& (1 <<< 1) == 0) o s fuel).bind fun s1 =>
    pollSR (fun v => v &&& (1 <<< 7) != 0) o (writeReg s1 Reg.DR (data % 256)) fuel

/-- `uint8_t spi_receive(void)` from `src/spi_baremetal.c`, lines 83-87:
`while (!(SPI1_SR & (1 << 0)));` then `return SPI1_DR;`.  The returned byte
is the 32-bit data-register read truncated to `uint8_t`. -/
def spi_receive (o : Oracle) (s : MachState) (fuel : Nat) :
    Option (Nat × MachState) :=
  (pollSR (fun v => v &&& (1 <<< 0) == 0) o s fuel).map fun s1 =>
    (drVal o s1 % 256, afterDRRead o s1)

/-- `void spi_exchange_data(uint8_t data)` from `src/spi_baremetal.c`, lines
90-95:
`GPIOA_ODR &= ~NSS_PIN;` (`NSS_PIN = 1 << 4`), `spi_transmit(data);`,
`uint8_t received_data = spi_receive();`, `GPIOA_ODR |= NSS_PIN;`.
The received byte (first component of `spi_receive`'s result) is bound to a
local and never used: the C function returns `void`, so the embedding's
result carries the machine state only. -/
def spi_exchange_data (o : Oracle) (data : Nat) (s : MachState) (fuel : Nat) :
    Option MachState :=
  (spi_transmit o data (andNotEq s Reg.ODR (1 <<< 4)) fuel).bind fun s1 =>
    (spi_receive o s1 fuel).map fun rs =>
      orEq rs.2 Reg.ODR (1 <<< 4)

/-- The sequence of values written to register `r` in a trace, in order. -/
def writesTo (r : Reg) (t : List Event) : List Nat :=
  t.filterMap fun e =>
    match e with
    | Event.write r' v => if r' = r then some v else none
    | _ => none

/-- The sequence of registers written in a trace, in order. -/
def writeRegs (t : List Event) : List Reg :=
  t.filterMap fun e =>
    match e with
    | Event.write r _ => some r
    | _ => none

/-- The register accessed by an event. -/
def eventReg : Event → Reg
  | Event.read r _ => r
  | Event.write r _ => r

/-- Whether an event is a write. -/
def isWrite : Event → Bool
  | Event.write _ _ => true
  | _ => false

/-- Whether an event is a read of the SPI status register. -/
def isSRRead : Event → Bool
  | Event.read Reg.SR _ => true
  | _ => false

/-- The bytes read from the SPI data register in a trace, in order. -/
def drBytesRead (t : List Event) : List Nat :=
  t.filterMap fun e =>
    match e with
    | Event.read Reg.DR v => some v
    | _ => none


/-! ### Projection lemmas

Small rewrite rules that let `simp` evaluate the embedding step by step
without unfolding whole machine states at once. -/

@[simp] lemma regs_writeReg (s : MachState) (r : Reg) (v : Nat) (r' : Reg) :
    (writeReg s r v).regs r' = if r' = r then v % 2 ^ 32 else s.regs r' := rfl

@[simp] lemma trace_writeReg (s : MachState) (r : Reg) (v : Nat) :
    (writeReg s r v).trace = s.trace ++ [Event.write r (v % 2 ^ 32)] := rfl

@[simp] lemma srReads_writeReg (s : MachState) (r : Reg) (v : Nat) :
    (writeReg s r v).srReads = s.srReads := rfl

@[simp] lemma drReads_writeReg (s : MachState) (r : Reg) (v : Nat) :
    (writeReg s r v).drReads = s.drReads := rfl

@[simp] lemma regs_logRead (s : MachState) (r : Reg) (r' : Reg) :
    (logRead s r).regs r' = s.regs r' := rfl

@[simp] lemma trace_logRead (s : MachState) (r : Reg) :
    (logRead s r).trace = s.trace ++ [Event.read r (s.regs r)] := rfl

@[simp] lemma srReads_logRead (s : MachState) (r : Reg) :
    (logRead s r).srReads = s.srReads := rfl

@[simp] lemma drReads_logRead (s : MachState) (r : Reg) :
    (logRead s r).drReads = s.drReads := rfl

@[simp] lemma regs_initState (f : Reg → Nat) (r : Reg) :
    (initState f).regs r = f r % 2 ^ 32 := rfl

@[simp] lemma trace_initState (f : Reg → Nat) : (initState f).trace = [] := rfl

@[simp] lemma srReads_initState (f : Reg → Nat) : (initState f).srReads = 0 := rfl

@[simp] lemma drReads_initState (f : Reg → Nat) : (initState f).drReads = 0 := rfl

@[simp] lemma regs_afterSRRead (o : Oracle) (s : MachState) (r : Reg) :
    (afterSRRead o s).regs r = s.regs r := rfl

@[simp] lemma trace_afterSRRead (o : Oracle) (s : MachState) :
    (afterSRRead o s).trace = s.trace ++ [Event.read Reg.SR (srVal o s)] := rfl

@[simp] lemma srReads_afterSRRead (o : Oracle) (s : MachState) :
    (afterSRRead o s).srReads = s.srReads + 1 := rfl

@[simp] lemma drReads_afterSRRead (o : Oracle) (s : MachState) :
    (afterSRRead o s).drReads = s.drReads := rfl

@[simp] lemma regs_afterDRRead (o : Oracle) (s : MachState) (r : Reg) :
    (afterDRRead o s).regs r = s.regs r := rfl

@[simp] lemma trace_afterDRRead (o : Oracle) (s : MachState) :
    (afterDRRead o s).trace = s.trace ++ [Event.read Reg.DR (drVal o s)] := rfl

@[simp] lemma srReads_afterDRRead (o : Oracle) (s : MachState) :
    (afterDRRead o s).srReads = s.srReads := rfl

@[simp] lemma drReads_afterDRRead (o : Oracle) (s : MachState) :
    (afterDRRead o s).drReads = s.drReads + 1 := rfl

/-- The whole register file is unchanged by a status-register read. -/
lemma regsFun_afterSRRead (o : Oracle) (s : MachState) :
    (afterSRRead o s).regs = s.regs := rfl

/-- The whole register file is unchanged by a data-register read. -/
lemma regsFun_afterDRRead (o : Oracle) (s : MachState) :
    (afterDRRead o s).regs = s.regs := rfl

/-! Literal bitwise-AND facts (the `Nat` AND simproc of this toolchain does
not fire on `&&&`, so `simp` needs them spelled out). -/

@[simp] lemma land_3_2 : (3 : Nat) &&& 2 = 2 := rfl

@[simp] lemma land_3_128 : (3 : Nat) &&& 128 = 0 := rfl

@[simp] lemma land_3_1 : (3 : Nat) &&& 1 = 1 := rfl

@[simp] lemma land_allones_clrModer :
    (4294967295 : Nat) &&& 4294902015 = 4294902015 := rfl

@[simp] lemma land_allones_clrAfrl : (4294967295 : Nat) &&& 65535 = 65535 := rfl

/-! ### Concrete fixtures used to evaluate the model -/

/-- Pre-call register contents: all registers zero. -/
def fZero : Reg → Nat := fun _ => 0

/-- Pre-call register contents: all registers all-ones. -/
def fOnes : Reg → Nat := fun _ => 0xFFFFFFFF

/-- An oracle whose status register always reads `0x03` (TXE set, RXNE set,
BSY clear: every awaited flag is ready at once) and whose data register
always reads `0xAA`. -/
def oReady : Oracle := { sr := fun _ => 3, dr := fun _ => 0xAA }

/-- An oracle that holds TXE low for the first three status reads and then
raises it, with BSY clear and RXNE set from then on; the data register reads
`0xAA`. -/
def oTxeDelay3 : Oracle :=
  { sr := fun n => if n < 3 then 0 else 3, dr := fun _ => 0xAA }

/-- An oracle whose status register always reads zero: TXE never rises. -/
def oStuck : Oracle := { sr := fun _ => 0, dr := fun _ => 0 }

/-- The sequence of registers written by `spi_init`, independent of the
pre-call register contents. -/
def regWriteOrder : List Reg :=
  [Reg.AHB1ENR, Reg.APB2ENR, Reg.MODER, Reg.MODER, Reg.AFRL, Reg.AFRL,
   Reg.CR1, Reg.CR1, Reg.CR1, Reg.CR1, Reg.CR1, Reg.CR1]

/-- The sequence of values `spi_init` writes to SPI Control Register 1,
independent of the pre-call register contents. -/
def cr1WriteVals : List Nat := [0, 4, 28, 28, 28, 92]

/-! ### C1 -/

/-- C1: the claim says `spi_exchange_data` returns the received byte to its
caller.  The C function has return type `void`: it binds the byte produced
by `spi_receive` to the local `received_data` and never uses it, so the
received byte is discarded inside the driver.  Evaluating the code at the
failing input: with the oracle `oReady` (all flags immediately ready, data
register reading `0xAA`) and `tx = 0x55`, the helper `spi_receive` does
return the byte `0xAA` it read after the RXNE poll, and the exchange
completes with that byte appearing in the bus trace as the one data-register
read — but `spi_exchange_data`'s result carries the machine state only,
with no received byte in it. -/
theorem spi_exchange_data_drops_received_byte :
    (spi_receive oReady (initState fZero) 2).map Prod.fst = some 0xAA ∧
    (spi_exchange_data oReady 0x55 (initState fZero) 4).map
      (fun s => drBytesRead s.trace) = some [0xAA] := by
  refine ⟨?_, ?_⟩ <;>
    simp [spi_exchange_data, spi_transmit, spi_receive, pollSR, oReady, fZero,
      srVal, drVal, andNotEq, orEq, writeReg, logRead, afterSRRead, afterDRRead,
      initState, drBytesRead, ones32]

/-! ### C2 -/

/-- C2 counterexample: the claim says each of the GPIO mode register and the
GPIO alternate-function register receives exactly one bus write during
`spi_init`, with clears and sets applied together, and that no intermediate
value with the four pins' fields cleared but not yet set is ever written.
Starting from all-ones register contents, `spi_init` issues two bus writes
to `GPIOA_MODER` — first `0xFFFF00FF` (pins' mode fields cleared, new values
not yet set: its bits 8-15 are all zero) and then `0xFFFFAAFF` — and
likewise two writes to `GPIOA_AFRL`, so the write count is 2, not 1, and the
cleared-but-not-yet-set intermediate value is written on the bus. -/
theorem spi_init_writes_gpio_intermediate :
    writesTo Reg.MODER (spi_init (initState fOnes)).trace =
      [0xFFFF00FF, 0xFFFFAAFF] ∧
    (writesTo Reg.MODER (spi_init (initState fOnes)).trace).length ≠ 1 ∧
    writesTo Reg.AFRL (spi_init (initState fOnes)).trace =
      [0xFFFF, 0x5555FFFF] ∧
    (writesTo Reg.AFRL (spi_init (initState fOnes)).trace).length ≠ 1 ∧
    0xFFFF00FF &&& 0xFF00 = 0 ∧ 0xFFFF &&& 0xFFFF0000 = 0 := by
  refine ⟨?_, ?_, ?_, ?_, rfl, rfl⟩ <;>
    simp [spi_init, orEq, andNotEq, writesTo, fOnes, ones32]

/-- C2 amended: during `spi_init`'s GPIO section each affected register
(`GPIOA_MODER`, `GPIOA_AFRL`) receives exactly two bus writes, one per
read-modify-write statement: the first write carries the pre-call value with
the four pins' fields cleared (an intermediate value whose pin fields are
all zero is written to the bus), and the second carries that value with the
new field encodings or-ed in, so the final written value has both the clears
and the sets applied. -/
theorem spi_init_gpio_clear_then_set (f : Reg → Nat) :
    writesTo Reg.MODER (spi_init (initState f)).trace =
      [((f Reg.MODER % 2 ^ 32) &&& (ones32 ^^^ 0xFF00)) % 2 ^ 32,
       ((((f Reg.MODER % 2 ^ 32) &&& (ones32 ^^^ 0xFF00)) % 2 ^ 32) ||| 0xAA00) % 2 ^ 32] ∧
    writesTo Reg.AFRL (spi_init (initState f)).trace =
      [((f Reg.AFRL % 2 ^ 32) &&& (ones32 ^^^ 0xFFFF0000)) % 2 ^ 32,
       ((((f Reg.AFRL % 2 ^ 32) &&& (ones32 ^^^ 0xFFFF0000)) % 2 ^ 32) ||| 0x55550000) % 2 ^ 32] := by
  refine ⟨?_, ?_⟩ <;> simp [spi_init, orEq, andNotEq, writesTo, ones32]

/-! ### C3 -/

/-- C3: in every execution of `spi_init` (for arbitrary pre-call register
contents), the write that sets the GPIO-bank clock-enable bit
(`RCC_AHB1ENR`, bit 0) and the write that sets the SPI clock-enable bit
(`RCC_APB2ENR`, bit 12) each occur exactly once, the sequence of registers
written is `regWriteOrder`, and within that sequence every clock-enable
write strictly precedes every write to the GPIO mode register, the GPIO
alternate-function register, or SPI Control Register 1. -/
theorem spi_init_clocks_first (f : Reg → Nat) :
    writesTo Reg.AHB1ENR (spi_init (initState f)).trace =
      [((f Reg.AHB1ENR % 2 ^ 32) ||| 1) % 2 ^ 32] ∧
    writesTo Reg.APB2ENR (spi_init (initState f)).trace =
      [((f Reg.APB2ENR % 2 ^ 32) ||| 4096) % 2 ^ 32] ∧
    writeRegs (spi_init (initState f)).trace = regWriteOrder ∧
    ∀ i j : Fin regWriteOrder.length,
      (regWriteOrder.get i = Reg.AHB1ENR ∨ regWriteOrder.get i = Reg.APB2ENR) →
      (regWriteOrder.get j = Reg.MODER ∨ regWriteOrder.get j = Reg.AFRL ∨
        regWriteOrder.get j = Reg.CR1) →
      (i : Nat) < (j : Nat) := by
  refine ⟨?_, ?_, ?_, by decide⟩ <;>
    simp [spi_init, orEq, andNotEq, writesTo, writeRegs, regWriteOrder, ones32]

/-- C3 witness: instantiating the ordering part of `spi_init_clocks_first`
at all-zero pre-call contents, at the first write (the GPIO-bank clock
enable) and the third write (the first GPIO mode-register write). -/
theorem spi_init_clocks_first_witness : (0 : Nat) < 2 :=
  (spi_init_clocks_first fZero).2.2.2 ⟨0, by decide⟩ ⟨2, by decide⟩
    (Or.inl (by decide)) (Or.inl (by decide))

/-! ### C4 -/

/-- C4: the sequence of values `spi_init` writes to SPI Control Register 1
is `cr1WriteVals = [0, 4, 28, 28, 28, 92]` for every pre-call register
state: index 0 zeroes the register, index 1 is the master-mode write
(`|= 1 << 2`), index 2 the clock-divider write (`|= 3 << 3`), indices 3 and
4 the CPOL and CPHA writes (`|= 0 << 1`, `|= 0 << 0`), and index 5 the
enable write (`|= 1 << 6`).  Every write whose value has the
peripheral-enable bit (bit 6) set is the last one, at index 5 — so the
enable bit transitions from 0 to 1 only after the master-mode, divider,
CPOL and CPHA writes have all happened in the same call, and no write with
the enable bit set precedes them. -/
theorem spi_init_enable_bit_last (f : Reg → Nat) :
    writesTo Reg.CR1 (spi_init (initState f)).trace = cr1WriteVals ∧
    ∀ i : Fin cr1WriteVals.length,
      (cr1WriteVals.get i) &&& (1 <<< 6) ≠ 0 → (i : Nat) = 5 := by
  refine ⟨?_, by decide⟩
  simp [spi_init, orEq, andNotEq, writesTo, cr1WriteVals, ones32]

/-- C4 witness: the sixth control-register write value `92` has the enable
bit set, and `spi_init_enable_bit_last` places it at index 5. -/
theorem spi_init_enable_bit_last_witness :
    ((⟨5, by decide⟩ : Fin cr1WriteVals.length) : Nat) = 5 :=
  (spi_init_enable_bit_last fZero).2 ⟨5, by decide⟩ (by decide)

/-! ### C9 -/

/-- C9: after `spi_init`, for every pre-call register state, SPI Control
Register 1 — whose first write in the call is the zeroing write `0` — holds
exactly `0x5C = 92`: master-mode bit (bit 2) set, clock-divider field
(bits 3-5) equal to `3` (divide-by-16), CPOL (bit 1) clear, CPHA (bit 0)
clear, and enable bit (bit 6) set. -/
theorem spi_init_cr1_final (f : Reg → Nat) :
    (spi_init (initState f)).regs Reg.CR1 = 0x5C ∧
    (writesTo Reg.CR1 (spi_init (initState f)).trace).head? = some 0 ∧
    ((spi_init (initState f)).regs Reg.CR1).testBit 2 = true ∧
    (((spi_init (initState f)).regs Reg.CR1) >>> 3) &&& 7 = 3 ∧
    ((spi_init (initState f)).regs Reg.CR1).testBit 1 = false ∧
    ((spi_init (initState f)).regs Reg.CR1).testBit 0 = false ∧
    ((spi_init (initState f)).regs Reg.CR1).testBit 6 = true := by
  have h : (spi_init (initState f)).regs Reg.CR1 = 92 := by
    simp [spi_init, orEq, andNotEq, ones32]
  refine ⟨h, ?_, ?_, ?_, ?_, ?_, ?_⟩
  · simp [spi_init, orEq, andNotEq, writesTo, ones32]
  all_goals rw [h]
  all_goals decide

/-! ### C8 -/

/-- Bits outside the or-mask are unchanged by `(x % 2^32 ||| m) % 2^32`. -/
lemma frame_or_bit (x m i : Nat) (him : i < 32 → m.testBit i = false) :
    (((x % 2 ^ 32) ||| m) % 2 ^ 32).testBit i = (x % 2 ^ 32).testBit i := by
  rcases Nat.lt_or_ge i 32 with h | h
  · simp only [Nat.testBit_mod_two_pow, Nat.testBit_or]
    rw [him h]
    cases hx : x.testBit i <;> simp [h, hx]
  · have h32 : ¬ i < 32 := Nat.not_lt.2 h
    simp only [Nat.testBit_mod_two_pow]
    simp [h32]

/-- Bits kept by the and-mask and outside the or-mask are unchanged by the
clear-then-set pair `((x % 2^32 &&& c) % 2^32 ||| m) % 2^32`. -/
lemma frame_and_or_bit (x c m i : Nat) (hic : i < 32 → c.testBit i = true)
    (him : i < 32 → m.testBit i = false) :
    (((((x % 2 ^ 32) &&& c) % 2 ^ 32) ||| m) % 2 ^ 32).testBit i =
      (x % 2 ^ 32).testBit i := by
  rcases Nat.lt_or_ge i 32 with h | h
  · simp only [Nat.testBit_mod_two_pow, Nat.testBit_or, Nat.testBit_and]
    rw [him h, hic h]
    cases hx : x.testBit i <;> simp [h, hx]
  · have h32 : ¬ i < 32 := Nat.not_lt.2 h
    simp only [Nat.testBit_mod_two_pow]
    simp [h32]

/-- C8: for all pre-call register contents, `spi_init` leaves unchanged
every bit of `RCC_AHB1ENR` other than bit 0 (the GPIOA clock enable), every
bit of `RCC_APB2ENR` other than bit 12 (the SPI1 clock enable), every bit of
the GPIO mode register outside the four pins' 2-bit fields (bits 8-15, for
PA4-PA7), and every bit of the GPIO alternate-function register outside the
four pins' 4-bit fields (bits 16-31). -/
theorem spi_init_preserves_other_bits (f : Reg → Nat) :
    (∀ i, i ≠ 0 →
      ((spi_init (initState f)).regs Reg.AHB1ENR).testBit i =
        ((initState f).regs Reg.AHB1ENR).testBit i) ∧
    (∀ i, i ≠ 12 →
      ((spi_init (initState f)).regs Reg.APB2ENR).testBit i =
        ((initState f).regs Reg.APB2ENR).testBit i) ∧
    (∀ i, i < 8 ∨ 15 < i →
      ((spi_init (initState f)).regs Reg.MODER).testBit i =
        ((initState f).regs Reg.MODER).testBit i) ∧
    (∀ i, i < 16 ∨ 31 < i →
      ((spi_init (initState f)).regs Reg.AFRL).testBit i =
        ((initState f).regs Reg.AFRL).testBit i) := by
  have hA : (spi_init (initState f)).regs Reg.AHB1ENR =
      ((f Reg.AHB1ENR % 2 ^ 32) ||| 1) % 2 ^ 32 := by
    simp [spi_init, orEq, andNotEq, ones32]
  have hB : (spi_init (initState f)).regs Reg.APB2ENR =
      ((f Reg.APB2ENR % 2 ^ 32) ||| 4096) % 2 ^ 32 := by
    simp [spi_init, orEq, andNotEq, ones32]
  have hM : (spi_init (initState f)).regs Reg.MODER =
      ((((f Reg.MODER % 2 ^ 32) &&& 4294902015) % 2 ^ 32) ||| 43520) % 2 ^ 32 := by
    simp [spi_init, orEq, andNotEq, ones32]
  have hF : (spi_init (initState f)).regs Reg.AFRL =
      ((((f Reg.AFRL % 2 ^ 32) &&& 65535) % 2 ^ 32) ||| 1431633920) % 2 ^ 32 := by
    simp [spi_init, orEq, andNotEq, ones32]
  refine ⟨?_, ?_, ?_, ?_⟩
  · intro i hi
    rw [hA]
    simp only [regs_initState]
    refine frame_or_bit _ 1 i fun _ => ?_
    have h1 : ((2 : Nat) ^ 0).testBit i = false :=
      Nat.testBit_two_pow_of_ne (Ne.symm hi)
    simpa using h1
  · intro i hi
    rw [hB]
    simp only [regs_initState]
    refine frame_or_bit _ 4096 i fun _ => ?_
    have h1 : ((2 : Nat) ^ 12).testBit i = false :=
      Nat.testBit_two_pow_of_ne (Ne.symm hi)
    simpa using h1
  · intro i hi
    rw [hM]
    simp only [regs_initState]
    refine frame_and_or_bit _ 4294902015 43520 i (fun h32 => ?_) (fun h32 => ?_)
    · rcases hi with h | h
      · interval_cases i <;> decide
      · interval_cases i <;> decide
    · rcases hi with h | h
      · interval_cases i <;> decide
      · interval_cases i <;> decide
  · intro i hi
    rw [hF]
    simp only [regs_initState]
    refine frame_and_or_bit _ 65535 1431633920 i (fun h32 => ?_) (fun h32 => ?_)
    · rcases hi with h | h
      · interval_cases i <;> decide
      · omega
    · rcases hi with h | h
      · interval_cases i <;> decide
      · omega

/-- C8 witness: at all-zero pre-call contents, bit 1 of `RCC_AHB1ENR` is the
same before and after `spi_init`. -/
theorem spi_init_preserves_other_bits_witness :
    ((spi_init (initState fZero)).regs Reg.AHB1ENR).testBit 1 =
      ((initState fZero).regs Reg.AHB1ENR).testBit 1 :=
  (spi_init_preserves_other_bits fZero).1 1 (by decide)

lemma pollSR_eq_some (cont : Nat → Bool) (o : Oracle) :
    ∀ (fuel : Nat) (s s' : MachState), pollSR cont o s fuel = some s' →
      s'.regs = s.regs ∧ s'.drReads = s.drReads ∧
      ∃ n, s'.srReads = s.srReads + n + 1 ∧
        s'.trace = s.trace ++
          (List.range (n + 1)).map
            (fun k => Event.read Reg.SR (o.sr (s.srReads + k) % 2 ^ 32)) ∧
        (∀ k, k < n → cont (o.sr (s.srReads + k) % 2 ^ 32) = true) ∧
        cont (o.sr (s.srReads + n) % 2 ^ 32) = false := by
  intro fuel
  induction fuel with
  | zero =>
    intro s s' h
    simp [pollSR] at h
  | succ fuel ih =>
    intro s s' h
    simp only [pollSR] at h
    cases hcv : cont (srVal o s) with
    | false =>
      rw [hcv] at h
      simp only [Bool.false_eq_true, if_false, Option.some.injEq] at h
      subst h
      refine ⟨rfl, rfl, 0, by simp, ?_, ?_, ?_⟩
      · simp [srVal, List.range_succ]
      · intro k hk; omega
      · simpa [srVal] using hcv
    | true =>
      rw [hcv] at h
      simp only [if_true] at h
      obtain ⟨hregs, hdr, n, hsr, htr, hidle, hstop⟩ := ih (afterSRRead o s) s' h
      refine ⟨by rw [hregs]; rfl, by rw [hdr]; rfl, n + 1, ?_, ?_, ?_, ?_⟩
      · rw [hsr]; simp [afterSRRead]; omega
      · rw [htr]
        simp only [trace_afterSRRead, srReads_afterSRRead, List.append_assoc]
        congr 1
        have htail :
            List.map (fun k => Event.read Reg.SR (o.sr (s.srReads + 1 + k) % 2 ^ 32))
              (List.range (n + 1)) =
            List.map ((fun k => Event.read Reg.SR (o.sr (s.srReads + k) % 2 ^ 32)) ∘ Nat.succ)
              (List.range (n + 1)) := by
          apply List.map_congr_left
          intro k _
          simp only [Function.comp_apply]
          rw [show s.srReads + 1 + k = s.srReads + Nat.succ k from by omega]
        conv_rhs => rw [List.range_succ_eq_map]
        rw [List.map_cons, List.map_map, List.singleton_append, htail]
        rfl
      · intro k hk
        cases k with
        | zero => simpa [srVal] using hcv
        | succ j =>
          have hj : s.srReads + (j + 1) = s.srReads + 1 + j := by omega
          rw [hj]
          exact (by simpa [srReads_afterSRRead] using hidle j (by omega))
      · have hn : s.srReads + (n + 1) = s.srReads + 1 + n := by omega
        rw [hn]
        simpa [srReads_afterSRRead] using hstop

lemma pollSR_halts (cont : Nat → Bool) (o : Oracle) :
    ∀ (k : Nat) (s : MachState), cont (o.sr (s.srReads + k) % 2 ^ 32) = false →
      ∀ fuel, k < fuel → (pollSR cont o s fuel).isSome = true := by
  intro k
  induction k with
  | zero =>
    intro s hs fuel hf
    match fuel, hf with
    | fuel + 1, _ =>
      simp only [pollSR]
      cases hcv : cont (srVal o s) with
      | false => simp
      | true =>
        rw [show srVal o s = o.sr (s.srReads + 0) % 2 ^ 32 from rfl, hs] at hcv
        exact absurd hcv (by simp)
  | succ k ih =>
    intro s hs fuel hf
    match fuel, hf with
    | fuel + 1, hf =>
      simp only [pollSR]
      cases hcv : cont (srVal o s) with
      | false => simp
      | true =>
        simp only [hcv, if_true]
        refine ih (afterSRRead o s) ?_ fuel (by omega)
        rw [srReads_afterSRRead, show s.srReads + 1 + k = s.srReads + (k + 1) from by omega]
        exact hs

lemma pollSR_stuck (cont : Nat → Bool) (o : Oracle)
    (hall : ∀ j, cont (o.sr j % 2 ^ 32) = true) :
    ∀ (fuel : Nat) (s : MachState), pollSR cont o s fuel = none := by
  intro fuel
  induction fuel with
  | zero => intro s; rfl
  | succ fuel ih =>
    intro s
    simp only [pollSR, srVal, hall s.srReads, if_true]
    exact ih (afterSRRead o s)

/-- A byte truncated to `uint8_t` is unchanged by 32-bit truncation. -/
lemma mod256_mod_two_pow_32 (d : Nat) : d % 256 % 2 ^ 32 = d % 256 :=
  Nat.mod_eq_of_lt (lt_of_lt_of_le (Nat.mod_lt _ (by norm_num)) (by norm_num))

lemma exchange_structure (o : Oracle) (data : Nat) (s s' : MachState) (fuel : Nat)
    (h : spi_exchange_data o data s fuel = some s') :
    ∃ nT nB nR,
      (∀ r, r ≠ Reg.ODR → r ≠ Reg.DR → s'.regs r = s.regs r) ∧
      s'.regs Reg.DR = data % 256 ∧
      s'.regs Reg.ODR =
        (((s.regs Reg.ODR &&& (ones32 ^^^ (1 <<< 4))) % 2 ^ 32) ||| (1 <<< 4)) % 2 ^ 32 ∧
      s'.trace = s.trace ++
        [Event.read Reg.ODR (s.regs Reg.ODR),
         Event.write Reg.ODR ((s.regs Reg.ODR &&& (ones32 ^^^ (1 <<< 4))) % 2 ^ 32)] ++
        (List.range (nT + 1)).map
          (fun k => Event.read Reg.SR (o.sr (s.srReads + k) % 2 ^ 32)) ++
        [Event.write Reg.DR (data % 256)] ++
        (List.range (nB + 1)).map
          (fun k => Event.read Reg.SR (o.sr (s.srReads + nT + 1 + k) % 2 ^ 32)) ++
        (List.range (nR + 1)).map
          (fun k => Event.read Reg.SR (o.sr (s.srReads + nT + 1 + nB + 1 + k) % 2 ^ 32)) ++
        [Event.read Reg.DR (o.dr s.drReads % 2 ^ 32),
         Event.read Reg.ODR ((s.regs Reg.ODR &&& (ones32 ^^^ (1 <<< 4))) % 2 ^ 32),
         Event.write Reg.ODR
           ((((s.regs Reg.ODR &&& (ones32 ^^^ (1 <<< 4))) % 2 ^ 32) ||| (1 <<< 4)) % 2 ^ 32)] ∧
      (∀ k, k < nT → (o.sr (s.srReads + k) % 2 ^ 32) &&& 2 = 0) ∧
      ((o.sr (s.srReads + nT) % 2 ^ 32) &&& 2 ≠ 0) ∧
      (∀ k, k < nB → (o.sr (s.srReads + nT + 1 + k) % 2 ^ 32) &&& 128 ≠ 0) ∧
      ((o.sr (s.srReads + nT + 1 + nB) % 2 ^ 32) &&& 128 = 0) ∧
      (∀ k, k < nR → (o.sr (s.srReads + nT + 1 + nB + 1 + k) % 2 ^ 32) &&& 1 = 0) ∧
      ((o.sr (s.srReads + nT + 1 + nB + 1 + nR) % 2 ^ 32) &&& 1 ≠ 0) := by
  simp only [spi_exchange_data, spi_transmit, spi_receive] at h
  rcases Option.bind_eq_some.mp h with ⟨s1, hTz, hRest⟩
  rcases Option.bind_eq_some.mp hTz with ⟨s2, hT, hB⟩
  rcases Option.map_eq_some'.mp hRest with ⟨rs, hRec, hOr⟩
  rcases Option.map_eq_some'.mp hRec with ⟨s3, hR, hrs⟩
  obtain ⟨hTregs, hTdr, nT, hTsr, hTtr, hTidle, hTstop⟩ := pollSR_eq_some _ o fuel _ _ hT
  obtain ⟨hBregs, hBdr, nB, hBsr, hBtr, hBidle, hBstop⟩ := pollSR_eq_some _ o fuel _ _ hB
  obtain ⟨hRregs, hRdr, nR, hRsr, hRtr, hRidle, hRstop⟩ := pollSR_eq_some _ o fuel _ _ hR
  subst hOr
  subst hrs
  have e2sr : s2.srReads = s.srReads + nT + 1 := by
    rw [hTsr]; simp [andNotEq]
  have e1sr : s1.srReads = s.srReads + nT + 1 + nB + 1 := by
    rw [hBsr]; simp [e2sr]
  have e2dr : s2.drReads = s.drReads := by
    rw [hTdr]; simp [andNotEq]
  have e1dr : s1.drReads = s.drReads := by
    rw [hBdr]; simp [e2dr]
  have e3dr : s3.drReads = s.drReads := by
    rw [hRdr]; exact e1dr
  have e2regs : ∀ r, s2.regs r = (andNotEq s Reg.ODR (1 <<< 4)).regs r :=
    fun r => congrFun hTregs r
  have e1regs : ∀ r, s1.regs r = (writeReg s2 Reg.DR (data % 256)).regs r :=
    fun r => congrFun hBregs r
  have e3regs : ∀ r, s3.regs r = (writeReg s2 Reg.DR (data % 256)).regs r :=
    fun r => (congrFun hRregs r).trans (e1regs r)
  have hodr3 : s3.regs Reg.ODR = (s.regs Reg.ODR &&& (ones32 ^^^ (1 <<< 4))) % 2 ^ 32 := by
    rw [e3regs Reg.ODR]
    simp only [regs_writeReg, if_neg (show Reg.ODR ≠ Reg.DR by decide)]
    rw [e2regs Reg.ODR]
    simp [andNotEq]
  refine ⟨nT, nB, nR, ?_, ?_, ?_, ?_, ?_, ?_, ?_, ?_, ?_, ?_⟩
  · intro r h1 h2
    simp only [orEq, regs_writeReg, regs_logRead, regs_afterDRRead, if_neg h1]
    rw [e3regs r]
    simp only [regs_writeReg, if_neg h2]
    rw [e2regs r]
    simp [andNotEq, if_neg h1]
  · simp only [orEq, regs_writeReg, regs_logRead, regs_afterDRRead,
      if_neg (show Reg.DR ≠ Reg.ODR by decide)]
    rw [e3regs Reg.DR]
    simp only [regs_writeReg, if_pos rfl]
    exact mod256_mod_two_pow_32 data
  · simp only [orEq, regs_writeReg, regs_logRead, regs_afterDRRead, eq_self_iff_true,
      if_true]
    rw [hodr3]
  · simp only [orEq, trace_writeReg, trace_logRead, regs_afterDRRead, trace_afterDRRead,
      regs_logRead]
    rw [hodr3, hRtr, hBtr]
    simp only [hTtr, trace_writeReg, trace_logRead, trace_afterSRRead, srReads_writeReg,
      drReads_writeReg, andNotEq, regs_logRead, srReads_logRead, drReads_logRead,
      srVal, drVal, e2sr, e1sr, e2dr, e1dr, e3dr, mod256_mod_two_pow_32, List.append_assoc]
    simp only [List.singleton_append, List.cons_append, List.nil_append]
  · intro k hk
    have hx := hTidle k hk
    simp only [srReads_writeReg, srReads_logRead, andNotEq] at hx
    simpa using hx
  · have hx := hTstop
    simp only [srReads_writeReg, srReads_logRead, andNotEq] at hx
    simpa using hx
  · intro k hk
    have hx := hBidle k hk
    simp only [srReads_writeReg, e2sr] at hx
    simpa using hx
  · have hx := hBstop
    simp only [srReads_writeReg, e2sr] at hx
    simpa using hx
  · intro k hk
    have hx := hRidle k hk
    simp only [e1sr] at hx
    simpa using hx
  · have hx := hRstop
    simp only [e1sr] at hx
    simpa using hx

/-! ### C7 -/

/-- C7: the byte exchange terminates exactly when each awaited status
condition is eventually observed in sequence — some status read shows TXE
(bit 1) set, a strictly later one shows BSY (bit 7) clear, and a strictly
later one again shows RXNE (bit 0) set.  The first conjunct is the
if-and-only-if, phrased with the loop fuel: some fuel suffices iff the
oracle is eventually ready.  The remaining conjuncts are the divergence
direction flag by flag: under any oracle whose status register never shows
TXE set, or never shows BSY clear, or never shows RXNE set, the call returns
`none` at every fuel — the corresponding C spin-wait loop never terminates,
and there is no timeout, retry bound, or error return in the code. -/
theorem spi_exchange_data_terminates_iff (o : Oracle) (data : Nat) (f : Reg → Nat) :
    ((∃ fuel s', spi_exchange_data o data (initState f) fuel = some s') ↔
      (∃ a, (o.sr a % 2 ^ 32) &&& 2 ≠ 0 ∧
        ∃ b, a < b ∧ (o.sr b % 2 ^ 32) &&& 128 = 0 ∧
          ∃ c, b < c ∧ (o.sr c % 2 ^ 32) &&& 1 ≠ 0)) ∧
    ((∀ k, (o.sr k % 2 ^ 32) &&& 2 = 0) →
      ∀ fuel, spi_exchange_data o data (initState f) fuel = none) ∧
    ((∀ k, (o.sr k % 2 ^ 32) &&& 128 ≠ 0) →
      ∀ fuel, spi_exchange_data o data (initState f) fuel = none) ∧
    ((∀ k, (o.sr k % 2 ^ 32) &&& 1 = 0) →
      ∀ fuel, spi_exchange_data o data (initState f) fuel = none) := by
  refine ⟨⟨?_, ?_⟩, ?_, ?_, ?_⟩
  · rintro ⟨fuel, s', h⟩
    obtain ⟨nT, nB, nR, -, -, -, -, -, hTstop, -, hBstop, -, hRstop⟩ :=
      exchange_structure o data (initState f) s' fuel h
    simp only [srReads_initState, Nat.zero_add] at hTstop hBstop hRstop
    exact ⟨nT, hTstop, nT + 1 + nB, by omega, hBstop, nT + 1 + nB + 1 + nR,
      by omega, hRstop⟩
  · rintro ⟨a, ha, b, hab, hb, c, hbc, hc⟩
    have hT1 : (pollSR (fun v => v &&& (1 <<< 1) == 0) o
        (andNotEq (initState f) Reg.ODR (1 <<< 4)) (c + 1)).isSome = true := by
      refine pollSR_halts _ o a _ ?_ (c + 1) (by omega)
      simp only [andNotEq, srReads_writeReg, srReads_logRead, srReads_initState,
        Nat.zero_add]
      simpa using ha
    obtain ⟨s2, hT2⟩ := Option.isSome_iff_exists.mp hT1
    obtain ⟨-, -, nT, hTsr, -, hTidle, -⟩ := pollSR_eq_some _ o (c + 1) _ _ hT2
    simp only [andNotEq, srReads_writeReg, srReads_logRead, srReads_initState,
      Nat.zero_add] at hTsr hTidle
    have hnTa : nT ≤ a := by
      by_contra hlt
      have := hTidle a (by omega)
      rw [beq_iff_eq] at this
      exact ha this
    have hB1 : (pollSR (fun v => v &&& (1 <<< 7) != 0) o
        (writeReg s2 Reg.DR (data % 256)) (c + 1)).isSome = true := by
      refine pollSR_halts _ o (b - (nT + 1)) _ ?_ (c + 1) (by omega)
      simp only [srReads_writeReg, hTsr]
      rw [show nT + 1 + (b - (nT + 1)) = b from by omega]
      simpa using hb
    obtain ⟨s1, hB2⟩ := Option.isSome_iff_exists.mp hB1
    obtain ⟨-, -, nB, hBsr, -, hBidle, -⟩ := pollSR_eq_some _ o (c + 1) _ _ hB2
    simp only [srReads_writeReg, hTsr] at hBsr hBidle
    have hnBb : nB ≤ b - (nT + 1) := by
      by_contra hlt
      have := hBidle (b - (nT + 1)) (by omega)
      rw [show nT + 1 + (b - (nT + 1)) = b from by omega] at this
      rw [bne_iff_ne] at this
      exact this hb
    have hR1 : (pollSR (fun v => v &&& (1 <<< 0) == 0) o s1 (c + 1)).isSome = true := by
      refine pollSR_halts _ o (c - s1.srReads) _ ?_ (c + 1) (by omega)
      rw [show s1.srReads + (c - s1.srReads) = c from by omega]
      simpa using hc
    obtain ⟨s3, hR2⟩ := Option.isSome_iff_exists.mp hR1
    refine ⟨c + 1, orEq (afterDRRead o s3) Reg.ODR (1 <<< 4), ?_⟩
    simp only [spi_exchange_data, spi_transmit, spi_receive]
    rw [hT2]
    simp only [Option.some_bind]
    rw [hB2]
    simp only [Option.some_bind]
    rw [hR2]
    simp only [Option.map_some', Option.some_bind]
  · intro hk fuel
    simp only [spi_exchange_data, spi_transmit]
    rw [pollSR_stuck _ o (fun j => by simpa using hk j) fuel]
    rfl
  · intro hk fuel
    simp only [spi_exchange_data, spi_transmit]
    rcases hpoll : pollSR (fun v => v &&& (1 <<< 1) == 0) o
        (andNotEq (initState f) Reg.ODR (1 <<< 4)) fuel with _ | s2
    · rfl
    · simp only [Option.some_bind]
      rw [pollSR_stuck _ o (fun j => by simpa using hk j) fuel]
      rfl
  · intro hk fuel
    simp only [spi_exchange_data, spi_transmit]
    rcases hpoll : pollSR (fun v => v &&& (1 <<< 1) == 0) o
        (andNotEq (initState f) Reg.ODR (1 <<< 4)) fuel with _ | s2
    · rfl
    · simp only [Option.some_bind]
      rcases hpoll2 : pollSR (fun v => v &&& (1 <<< 7) != 0) o
          (writeReg s2 Reg.DR (data % 256)) fuel with _ | s1
      · rfl
      · simp only [Option.some_bind, spi_receive]
        rw [pollSR_stuck _ o (fun j => by simpa using hk j) fuel]
        rfl

/-- Splitting a list at an element satisfying `P`, when nothing on either
side of the distinguished occurrence satisfies `P`, is unique. -/
lemma split_at_unique {α : Type} (P : α → Prop) :
    ∀ (A pre B post : List α) (e e' : α),
      (∀ x ∈ A, ¬ P x) → (∀ x ∈ B, ¬ P x) → P e → P e' →
      A ++ e :: B = pre ++ e' :: post → pre = A ∧ e' = e ∧ post = B := by
  intro A
  induction A with
  | nil =>
    intro pre B post e e' hA hB he he' heq
    cases pre with
    | nil =>
      simp only [List.nil_append, List.cons.injEq] at heq
      exact ⟨rfl, heq.1.symm, heq.2.symm⟩
    | cons p pre' =>
      simp only [List.nil_append, List.cons_append, List.cons.injEq] at heq
      exfalso
      refine hB e' ?_ he'
      rw [heq.2]
      exact List.mem_append_right _ (List.mem_cons_self _ _)
  | cons a A' ih =>
    intro pre B post e e' hA hB he he' heq
    cases pre with
    | nil =>
      simp only [List.cons_append, List.nil_append, List.cons.injEq] at heq
      exact absurd (heq.1 ▸ he') (hA a (List.mem_cons_self _ _))
    | cons p pre' =>
      simp only [List.cons_append, List.cons.injEq] at heq
      obtain ⟨h1, h2, h3⟩ := ih pre' B post e e'
        (fun x hx => hA x (List.mem_cons_of_mem _ hx)) hB he he' heq.2
      exact ⟨by rw [h1, heq.1], h2, h3⟩

/-! ### C10 -/

/-- C10: for all pre-call register contents and any oracle under which the
call returns, `spi_exchange_data` leaves every bit of the GPIO output-data
register other than bit 4 (the chip-select bit) at its pre-call value: both
the assert (`&= ~(1 << 4)`) and the deassert (`|= 1 << 4`) are
read-modify-writes touching only bit 4. -/
theorem spi_exchange_data_preserves_odr_bits (f : Reg → Nat) (o : Oracle)
    (data fuel : Nat) (s' : MachState)
    (h : spi_exchange_data o data (initState f) fuel = some s') :
    ∀ i, i ≠ 4 →
      (s'.regs Reg.ODR).testBit i = ((initState f).regs Reg.ODR).testBit i := by
  obtain ⟨nT, nB, nR, -, -, hodr, -, -, -, -, -, -, -⟩ :=
    exchange_structure o data (initState f) s' fuel h
  intro i hi
  rw [hodr]
  simp only [regs_initState]
  refine frame_and_or_bit _ _ _ i (fun h32 => ?_) (fun _ => ?_)
  · rw [show ones32 ^^^ (1 <<< 4) = 4294967279 from rfl]
    interval_cases i
    all_goals first
      | exact absurd rfl hi
      | decide
  · rw [show (1 : Nat) <<< 4 = 2 ^ 4 from rfl]
    exact Nat.testBit_two_pow_of_ne fun hh => hi hh.symm

/-- C10 witness: with the always-ready oracle and all-zero pre-call
contents, the exchange returns and bit 0 of the output-data register is
unchanged. -/
theorem spi_exchange_data_preserves_odr_bits_witness :
    ∃ s', spi_exchange_data oReady 0x55 (initState fZero) 4 = some s' ∧
      (s'.regs Reg.ODR).testBit 0 = ((initState fZero).regs Reg.ODR).testBit 0 := by
  have hs : (spi_exchange_data oReady 0x55 (initState fZero) 4).isSome = true := by
    simp [spi_exchange_data, spi_transmit, spi_receive, pollSR, oReady, fZero,
      srVal, drVal, andNotEq, orEq, writeReg, logRead, afterSRRead, afterDRRead,
      initState, ones32]
  obtain ⟨s', hs'⟩ := Option.isSome_iff_exists.mp hs
  exact ⟨s', hs',
    spi_exchange_data_preserves_odr_bits fZero oReady 0x55 4 s' hs' 0 (by decide)⟩

/-- `writesTo` distributes over list append. -/
lemma writesTo_append (r : Reg) (l1 l2 : List Event) :
    writesTo r (l1 ++ l2) = writesTo r l1 ++ writesTo r l2 := by
  simp [writesTo]

/-- A block of status-register reads contributes no writes. -/
lemma writesTo_map_read (r r2 : Reg) (g : Nat → Nat) (l : List Nat) :
    writesTo r (l.map fun k => Event.read r2 (g k)) = [] := by
  induction l with
  | nil => rfl
  | cons a l ih =>
    simp only [writesTo, List.map_cons, List.filterMap_cons] at ih ⊢
    exact ih

/-- A block of status-register reads is kept whole by the `isSRRead`
filter. -/
lemma filter_isSRRead_map (g : Nat → Nat) (l : List Nat) :
    (l.map fun k => Event.read Reg.SR (g k)).filter isSRRead =
      l.map fun k => Event.read Reg.SR (g k) := by
  induction l with
  | nil => rfl
  | cons a l ih =>
    simp only [List.map_cons, List.filter_cons, isSRRead, if_true]
    rw [ih]

/-! ### C5 -/

/-- C5: for every call to `spi_exchange_data` that returns (any input byte,
any pre-call register contents, any oracle), the bus trace is exactly an
opening read-modify-write of the output-data register writing `lo` with the
chip-select bit (bit 4) clear, a middle section `mid`, and a closing
read-modify-write writing `hi` with the chip-select bit set as the final two
events of the call.  The middle section contains no write to the output-data
register (the asserting and deasserting writes are the only ODR writes of
the call), it contains the single data-register write of the call — so
chip-select is low before the first data-register write — and every
status-register read of the call lies in `mid`, before the closing
read-modify-write — so chip-select is driven high only after the last
status-register read. -/
theorem spi_exchange_data_select_bracket (f : Reg → Nat) (o : Oracle)
    (data fuel : Nat) (s' : MachState)
    (h : spi_exchange_data o data (initState f) fuel = some s') :
    ∃ lo hi mid,
      s'.trace = Event.read Reg.ODR ((initState f).regs Reg.ODR) ::
        Event.write Reg.ODR lo ::
        (mid ++ [Event.read Reg.ODR lo, Event.write Reg.ODR hi]) ∧
      lo.testBit 4 = false ∧
      hi.testBit 4 = true ∧
      writesTo Reg.ODR mid = [] ∧
      Event.write Reg.DR (data % 256) ∈ mid ∧
      writesTo Reg.DR s'.trace = [data % 256] ∧
      (∀ e ∈ mid, isWrite e = true → e = Event.write Reg.DR (data % 256)) ∧
      s'.trace.filter isSRRead = mid.filter isSRRead ∧
      (∀ v, Event.read Reg.SR v ∈ s'.trace → Event.read Reg.SR v ∈ mid) := by
  obtain ⟨nT, nB, nR, -, -, -, htr, -, -, -, -, -, -⟩ :=
    exchange_structure o data (initState f) s' fuel h
  simp only [trace_initState, srReads_initState, drReads_initState, Nat.zero_add,
    List.nil_append] at htr
  refine ⟨((initState f).regs Reg.ODR &&& (ones32 ^^^ (1 <<< 4))) % 2 ^ 32,
    ((((initState f).regs Reg.ODR &&& (ones32 ^^^ (1 <<< 4))) % 2 ^ 32) ||| (1 <<< 4)) % 2 ^ 32,
    (List.range (nT + 1)).map (fun k => Event.read Reg.SR (o.sr k % 2 ^ 32)) ++
      [Event.write Reg.DR (data % 256)] ++
      (List.range (nB + 1)).map (fun k => Event.read Reg.SR (o.sr (nT + 1 + k) % 2 ^ 32)) ++
      (List.range (nR + 1)).map
        (fun k => Event.read Reg.SR (o.sr (nT + 1 + nB + 1 + k) % 2 ^ 32)) ++
      [Event.read Reg.DR (o.dr 0 % 2 ^ 32)],
    ?_, ?_, ?_, ?_, ?_, ?_, ?_, ?_, ?_⟩
  · rw [htr]
    simp only [regs_initState, List.append_assoc, List.cons_append, List.nil_append,
      List.singleton_append]
  · simp only [Nat.testBit_mod_two_pow, Nat.testBit_and]
    rw [show (ones32 ^^^ (1 <<< 4)).testBit 4 = false from by decide]
    simp
  · simp only [Nat.testBit_mod_two_pow, Nat.testBit_or]
    rw [show ((1 : Nat) <<< 4).testBit 4 = true from by decide]
    simp
  · simp only [writesTo_append, writesTo_map_read, List.nil_append, List.append_nil]
    simp [writesTo]
  · simp
  · rw [htr]
    simp only [List.append_assoc, writesTo_append, writesTo_map_read,
      List.nil_append, List.append_nil]
    simp [writesTo]
  · intro e he hw
    simp only [List.mem_append, List.mem_map, List.mem_range, List.mem_singleton] at he
    rcases he with ((((⟨k, hk, rfl⟩ | rfl) | ⟨k, hk, rfl⟩) | ⟨k, hk, rfl⟩) | rfl)
    · simp [isWrite] at hw
    · rfl
    · simp [isWrite] at hw
    · simp [isWrite] at hw
    · simp [isWrite] at hw
  · rw [htr]
    simp only [List.append_assoc, List.filter_append, filter_isSRRead_map]
    simp [isSRRead]
  · have hfil : s'.trace.filter isSRRead =
        ((List.range (nT + 1)).map (fun k => Event.read Reg.SR (o.sr k % 2 ^ 32)) ++
          [Event.write Reg.DR (data % 256)] ++
          (List.range (nB + 1)).map
            (fun k => Event.read Reg.SR (o.sr (nT + 1 + k) % 2 ^ 32)) ++
          (List.range (nR + 1)).map
            (fun k => Event.read Reg.SR (o.sr (nT + 1 + nB + 1 + k) % 2 ^ 32)) ++
          [Event.read Reg.DR (o.dr 0 % 2 ^ 32)]).filter isSRRead := by
      rw [htr]
      simp only [List.append_assoc, List.filter_append, filter_isSRRead_map]
      simp [isSRRead]
    intro v hv
    have h1 : Event.read Reg.SR v ∈ s'.trace.filter isSRRead :=
      List.mem_filter.mpr ⟨hv, rfl⟩
    rw [hfil] at h1
    exact (List.mem_filter.mp h1).1

/-! ### C6 -/

/-- C6: in every returning call to `spi_exchange_data`, wherever the trace
splits at a data-register write, the prefix before it contains a
status-register read whose TXE flag (bit 1) was set; wherever it splits at a
data-register read, the prefix contains a status-register read whose RXNE
flag (bit 0) was set — the data register is written only after TXE was
observed set and read only after RXNE was observed set.  Moreover, if the
oracle holds TXE false for exactly `N` status reads and raises it on the
`N`-th, the status-register reads performed before the one data-register
write are exactly the reads numbered `0..N`: `N` extra idle reads, then the
read that saw TXE set — busy-wait semantics, not a fixed-count skip. -/
theorem spi_exchange_data_poll_then_act (f : Reg → Nat) (o : Oracle)
    (data fuel : Nat) (s' : MachState)
    (h : spi_exchange_data o data (initState f) fuel = some s') :
    (∀ pre d post, s'.trace = pre ++ Event.write Reg.DR d :: post →
      ∃ v, Event.read Reg.SR v ∈ pre ∧ v &&& 2 ≠ 0) ∧
    (∀ pre d post, s'.trace = pre ++ Event.read Reg.DR d :: post →
      ∃ v, Event.read Reg.SR v ∈ pre ∧ v &&& 1 ≠ 0) ∧
    (∀ N, (∀ k, k < N → (o.sr k % 2 ^ 32) &&& 2 = 0) → (o.sr N % 2 ^ 32) &&& 2 ≠ 0 →
      ∀ pre d post, s'.trace = pre ++ Event.write Reg.DR d :: post →
        pre.filter isSRRead =
          (List.range (N + 1)).map fun k => Event.read Reg.SR (o.sr k % 2 ^ 32)) := by
  obtain ⟨nT, nB, nR, -, -, -, htr, hTidle, hTstop, -, -, hRidle, hRstop⟩ :=
    exchange_structure o data (initState f) s' fuel h
  simp only [trace_initState, srReads_initState, drReads_initState, Nat.zero_add,
    List.nil_append] at htr hTidle hTstop hRidle hRstop
  have htrA : s'.trace =
      ([Event.read Reg.ODR ((initState f).regs Reg.ODR),
        Event.write Reg.ODR (((initState f).regs Reg.ODR &&& (ones32 ^^^ (1 <<< 4))) % 2 ^ 32)] ++
        (List.range (nT + 1)).map (fun k => Event.read Reg.SR (o.sr k % 2 ^ 32))) ++
      Event.write Reg.DR (data % 256) ::
        ((List.range (nB + 1)).map (fun k => Event.read Reg.SR (o.sr (nT + 1 + k) % 2 ^ 32)) ++
          ((List.range (nR + 1)).map
            (fun k => Event.read Reg.SR (o.sr (nT + 1 + nB + 1 + k) % 2 ^ 32)) ++
          [Event.read Reg.DR (o.dr 0 % 2 ^ 32),
           Event.read Reg.ODR (((initState f).regs Reg.ODR &&& (ones32 ^^^ (1 <<< 4))) % 2 ^ 32),
           Event.write Reg.ODR
             ((((initState f).regs Reg.ODR &&& (ones32 ^^^ (1 <<< 4))) % 2 ^ 32 ||| (1 <<< 4)) % 2 ^ 32)])) := by
    rw [htr]
    simp [List.append_assoc]
  have hAnoDR : ∀ x ∈ ([Event.read Reg.ODR ((initState f).regs Reg.ODR),
      Event.write Reg.ODR (((initState f).regs Reg.ODR &&& (ones32 ^^^ (1 <<< 4))) % 2 ^ 32)] ++
      (List.range (nT + 1)).map (fun k => Event.read Reg.SR (o.sr k % 2 ^ 32))),
      ¬ ∃ dd, x = Event.write Reg.DR dd := by
    rintro x hx ⟨dd, rfl⟩
    simp [List.mem_append, List.mem_map] at hx
  have hBnoDR : ∀ x ∈ ((List.range (nB + 1)).map
      (fun k => Event.read Reg.SR (o.sr (nT + 1 + k) % 2 ^ 32)) ++
      ((List.range (nR + 1)).map
        (fun k => Event.read Reg.SR (o.sr (nT + 1 + nB + 1 + k) % 2 ^ 32)) ++
      [Event.read Reg.DR (o.dr 0 % 2 ^ 32),
       Event.read Reg.ODR (((initState f).regs Reg.ODR &&& (ones32 ^^^ (1 <<< 4))) % 2 ^ 32),
       Event.write Reg.ODR
         ((((initState f).regs Reg.ODR &&& (ones32 ^^^ (1 <<< 4))) % 2 ^ 32 ||| (1 <<< 4)) % 2 ^ 32)])),
      ¬ ∃ dd, x = Event.write Reg.DR dd := by
    rintro x hx ⟨dd, rfl⟩
    simp [List.mem_append, List.mem_map] at hx
  refine ⟨?_, ?_, ?_⟩
  · intro pre d post hsplit
    obtain ⟨hpre, -, -⟩ := split_at_unique (fun e => ∃ dd, e = Event.write Reg.DR dd)
      _ pre _ post _ _ hAnoDR hBnoDR ⟨data % 256, rfl⟩ ⟨d, rfl⟩ (htrA.symm.trans hsplit)
    refine ⟨o.sr nT % 2 ^ 32, ?_, hTstop⟩
    rw [hpre]
    exact List.mem_append_right _ (List.mem_map.mpr ⟨nT, List.mem_range.mpr (by omega), rfl⟩)
  · intro pre d post hsplit
    have htrB : s'.trace =
        (([Event.read Reg.ODR ((initState f).regs Reg.ODR),
          Event.write Reg.ODR (((initState f).regs Reg.ODR &&& (ones32 ^^^ (1 <<< 4))) % 2 ^ 32)] ++
          (List.range (nT + 1)).map (fun k => Event.read Reg.SR (o.sr k % 2 ^ 32)) ++
          [Event.write Reg.DR (data % 256)] ++
          (List.range (nB + 1)).map (fun k => Event.read Reg.SR (o.sr (nT + 1 + k) % 2 ^ 32)) ++
          (List.range (nR + 1)).map
            (fun k => Event.read Reg.SR (o.sr (nT + 1 + nB + 1 + k) % 2 ^ 32)))) ++
        Event.read Reg.DR (o.dr 0 % 2 ^ 32) ::
          [Event.read Reg.ODR (((initState f).regs Reg.ODR &&& (ones32 ^^^ (1 <<< 4))) % 2 ^ 32),
           Event.write Reg.ODR
             ((((initState f).regs Reg.ODR &&& (ones32 ^^^ (1 <<< 4))) % 2 ^ 32 ||| (1 <<< 4)) % 2 ^ 32)] := by
      rw [htr]
    have hA2 : ∀ x ∈ ([Event.read Reg.ODR ((initState f).regs Reg.ODR),
        Event.write Reg.ODR (((initState f).regs Reg.ODR &&& (ones32 ^^^ (1 <<< 4))) % 2 ^ 32)] ++
        (List.range (nT + 1)).map (fun k => Event.read Reg.SR (o.sr k % 2 ^ 32)) ++
        [Event.write Reg.DR (data % 256)] ++
        (List.range (nB + 1)).map (fun k => Event.read Reg.SR (o.sr (nT + 1 + k) % 2 ^ 32)) ++
        (List.range (nR + 1)).map
          (fun k => Event.read Reg.SR (o.sr (nT + 1 + nB + 1 + k) % 2 ^ 32))),
        ¬ ∃ dd, x = Event.read Reg.DR dd := by
      rintro x hx ⟨dd, rfl⟩
      simp [List.mem_append, List.mem_map] at hx
    have hB2 : ∀ x ∈ [Event.read Reg.ODR
          (((initState f).regs Reg.ODR &&& (ones32 ^^^ (1 <<< 4))) % 2 ^ 32),
        Event.write Reg.ODR
          ((((initState f).regs Reg.ODR &&& (ones32 ^^^ (1 <<< 4))) % 2 ^ 32 ||| (1 <<< 4)) % 2 ^ 32)],
        ¬ ∃ dd, x = Event.read Reg.DR dd := by
      rintro x hx ⟨dd, rfl⟩
      simp at hx
    obtain ⟨hpre, -, -⟩ := split_at_unique (fun e => ∃ dd, e = Event.read Reg.DR dd)
      _ pre _ post _ _ hA2 hB2 ⟨o.dr 0 % 2 ^ 32, rfl⟩ ⟨d, rfl⟩ (htrB.symm.trans hsplit)
    refine ⟨o.sr (nT + 1 + nB + 1 + nR) % 2 ^ 32, ?_, hRstop⟩
    rw [hpre]
    exact List.mem_append_right _
      (List.mem_map.mpr ⟨nR, List.mem_range.mpr (by omega), rfl⟩)
  · intro N hNidle hNstop pre d post hsplit
    obtain ⟨hpre, -, -⟩ := split_at_unique (fun e => ∃ dd, e = Event.write Reg.DR dd)
      _ pre _ post _ _ hAnoDR hBnoDR ⟨data % 256, rfl⟩ ⟨d, rfl⟩ (htrA.symm.trans hsplit)
    have hNT : nT = N := by
      rcases Nat.lt_trichotomy nT N with hlt | heq | hgt
      · exact absurd (hNidle nT hlt) hTstop
      · exact heq
      · exact absurd (hTidle N hgt) hNstop
    rw [hpre, hNT]
    simp only [List.filter_append, filter_isSRRead_map]
    simp [isSRRead]

/-- C5 witness: with the oracle that delays TXE three reads and all-zero
pre-call contents, the exchange returns and the select-bracket shape holds
of its trace. -/
theorem spi_exchange_data_select_bracket_witness :
    ∃ s', spi_exchange_data oTxeDelay3 0x55 (initState fZero) 9 = some s' ∧
      ∃ lo hi mid,
        s'.trace = Event.read Reg.ODR ((initState fZero).regs Reg.ODR) ::
          Event.write Reg.ODR lo ::
          (mid ++ [Event.read Reg.ODR lo, Event.write Reg.ODR hi]) ∧
        lo.testBit 4 = false ∧
        hi.testBit 4 = true ∧
        writesTo Reg.ODR mid = [] ∧
        Event.write Reg.DR (0x55 % 256) ∈ mid ∧
        writesTo Reg.DR s'.trace = [0x55 % 256] ∧
        (∀ e ∈ mid, isWrite e = true → e = Event.write Reg.DR (0x55 % 256)) ∧
        s'.trace.filter isSRRead = mid.filter isSRRead ∧
        (∀ v, Event.read Reg.SR v ∈ s'.trace → Event.read Reg.SR v ∈ mid) := by
  have hs : (spi_exchange_data oTxeDelay3 0x55 (initState fZero) 9).isSome = true := by
    simp [spi_exchange_data, spi_transmit, spi_receive, pollSR, oTxeDelay3, fZero,
      srVal, drVal, andNotEq, orEq, writeReg, logRead, afterSRRead, afterDRRead,
      initState, ones32]
  obtain ⟨s', hs'⟩ := Option.isSome_iff_exists.mp hs
  exact ⟨s', hs', spi_exchange_data_select_bracket fZero oTxeDelay3 0x55 9 s' hs'⟩

/-- C6 witness: with the oracle that delays TXE three reads, the trace of
the exchange splits at the single data-register write, and the prefix
before that write contains a status-register read with TXE set. -/
theorem spi_exchange_data_poll_then_act_witness :
    ∃ s', spi_exchange_data oTxeDelay3 0x55 (initState fZero) 9 = some s' ∧
      ∃ v, Event.read Reg.SR v ∈
        [Event.read Reg.ODR 0, Event.write Reg.ODR 0, Event.read Reg.SR 0,
         Event.read Reg.SR 0, Event.read Reg.SR 0, Event.read Reg.SR 3] ∧
        v &&& 2 ≠ 0 := by
  have hs : (spi_exchange_data oTxeDelay3 0x55 (initState fZero) 9).isSome = true := by
    simp [spi_exchange_data, spi_transmit, spi_receive, pollSR, oTxeDelay3, fZero,
      srVal, drVal, andNotEq, orEq, writeReg, logRead, afterSRRead, afterDRRead,
      initState, ones32]
  obtain ⟨s', hs'⟩ := Option.isSome_iff_exists.mp hs
  have htr : s'.trace =
      [Event.read Reg.ODR 0, Event.write Reg.ODR 0, Event.read Reg.SR 0,
       Event.read Reg.SR 0, Event.read Reg.SR 0, Event.read Reg.SR 3,
       Event.write Reg.DR 85, Event.read Reg.SR 3, Event.read Reg.SR 3,
       Event.read Reg.DR 170, Event.read Reg.ODR 0, Event.write Reg.ODR 16] := by
    have h2 := congrArg (fun x => Option.map MachState.trace x) hs'
    simp [spi_exchange_data, spi_transmit, spi_receive, pollSR, oTxeDelay3, fZero,
      srVal, drVal, andNotEq, orEq, writeReg, logRead, afterSRRead, afterDRRead,
      initState, ones32] at h2
    exact h2.symm
  refine ⟨s', hs', ?_⟩
  refine (spi_exchange_data_poll_then_act fZero oTxeDelay3 0x55 9 s' hs').1
    [Event.read Reg.ODR 0, Event.write Reg.ODR 0, Event.read Reg.SR 0,
     Event.read Reg.SR 0, Event.read Reg.SR 0, Event.read Reg.SR 3] 85
    [Event.read Reg.SR 3, Event.read Reg.SR 3, Event.read Reg.DR 170,
     Event.read Reg.ODR 0, Event.write Reg.ODR 16] ?_
  rw [htr]
  rfl

/-- C7 witness: under the oracle whose status register always reads zero
(TXE never rises), the exchange returns `none` at fuel 7 — the transmit
spin-wait never terminates. -/
theorem spi_exchange_data_terminates_iff_witness :
    spi_exchange_data oStuck 0x55 (initState fZero) 7 = none :=
  (spi_exchange_data_terminates_iff oStuck 0x55 fZero).2.1
    (fun k => by simp [oStuck]) 7

end SPIBaremetal
